import Mathlib

/-!
Verification of the simplenotes single-page note application.

The development shallowly embeds the two source modules:
* `src/js/db.js` — the persistence adapter; only its synchronous
  localStorage-fallback branch is modelled (the IndexedDB branch is
  browser-asynchronous).  The fallback store is the serialized array of
  notes kept under the fixed key, modelled as a `List Note`.
* `src/js/app.js` — the view controller.  Its module-level mutable state
  (`notes`, `currentNoteId`, the DOM field values and rendered surfaces)
  is modelled as an explicit `AppState` record that every event handler
  maps to a new state.  `Date.now()` and `new Date().toISOString()` are
  external inputs, passed as explicit parameters.

Strings are modelled by Lean `String` (a list of characters);
JavaScript's `toLowerCase` is modelled characterwise by `Char.toLower`.
-/

namespace SimpleNotes

/-- The Note record of the data model: `id`, `title`, `content`,
`updatedAt`, all strings, as constructed in `createNewNote` and
`saveCurrentNote` in app.js. -/
structure Note where
  id : String
  title : String
  content : String
  updatedAt : String
deriving Repr, DecidableEq

/-! db.js, localStorage fallback branch.  The store is the parsed array
under the `simpleNotes` key; each operation parses the array, transforms
it, and writes it back, so each is a function `List Note → List Note`. -/

/-- `saveNote` (db.js lines 49-60): `findIndex` of the first record with
the same `id`; replace it in place if found, otherwise `push` at the
end. -/
def saveNote (note : Note) (notes : List Note) : List Note :=
  match notes.findIdx? (fun n => n.id == note.id) with
  | some i => notes.set i note
  | none => notes ++ [note]

/-- `getNotes` (db.js lines 79-82): returns the parsed stored array
as-is. -/
def getNotes (notes : List Note) : List Note :=
  notes

/-- `deleteNote` (db.js lines 101-107): keeps exactly the records whose
`id` differs from the argument. -/
def deleteNote (id : String) (notes : List Note) : List Note :=
  notes.filter (fun note => note.id != id)

/-! Markdown renderer (app.js `renderPreview`, lines 162-172): five
global regex substitutions applied in a fixed order.  `.` in JavaScript
regexes does not match a newline and the two heading rules are anchored
per line by the `m` flag, so every rule acts line by line; each rule is
embedded as a per-line character-list transformation and lifted with
`perLine`.  The `(.*?)` groups are lazy, so a delimiter pair matches up
to the nearest closing delimiter; `splitFirst` realises this leftmost
shortest-match scan. -/

/-- `isPre pat s` is true when `pat` occurs at the start of `s`. -/
def isPre : List Char → List Char → Bool
  | [], _ => true
  | _ :: _, [] => false
  | p :: ps, c :: cs => p == c && isPre ps cs

/-- Splits `s` at the first occurrence of `pat`, returning the part
before it and the part after it, or `none` when `pat` does not occur. -/
def splitFirst (pat : List Char) : List Char → Option (List Char × List Char)
  | [] => none
  | c :: cs =>
    if isPre pat (c :: cs) then some ([], (c :: cs).drop pat.length)
    else
      match splitFirst pat cs with
      | some (pre, post) => some (c :: pre, post)
      | none => none

/-- One lazy global substitution of a symmetric delimiter pair, as in
`replace(/\x2a\x2a(.*?)\x2a\x2a/g, ...)`: repeatedly take the leftmost
delimiter, the nearest closing delimiter after it, wrap the enclosed
text in the open/close tags, and continue after the match.  `fuel`
bounds the recursion; each step strictly shortens the remainder, so any
fuel of at least the input length is exact. -/
def lazyPair (delim openT closeT : List Char) : Nat → List Char → List Char
  | 0, s => s
  | fuel + 1, s =>
    match splitFirst delim s with
    | none => s
    | some (pre, rest) =>
      match splitFirst delim rest with
      | none => s
      | some (mid, rest2) =>
        pre ++ openT ++ mid ++ closeT ++ lazyPair delim openT closeT fuel rest2

/-- The link rule: leftmost lazy match of text in square brackets
immediately followed by a URL in parentheses, replaced by an anchor
element with the URL as `href` and the text as body. -/
def linkSubst : Nat → List Char → List Char
  | 0, s => s
  | fuel + 1, s =>
    match splitFirst ['['] s with
    | none => s
    | some (pre, rest) =>
      match splitFirst [']', '('] rest with
      | none => s
      | some (txt, rest2) =>
        match splitFirst [')'] rest2 with
        | none => s
        | some (url, rest3) =>
          pre ++ "<a href=\"".data ++ url ++ "\">".data ++ txt ++ "</a>".data
            ++ linkSubst fuel rest3

/-- Splits a character list into its lines at newline characters. -/
def splitLines : List Char → List (List Char)
  | [] => [[]]
  | c :: cs =>
    if c = '\n' then [] :: splitLines cs
    else
      match splitLines cs with
      | [] => [[c]]
      | l :: ls => (c :: l) :: ls

/-- Rejoins lines with newline characters. -/
def joinLines : List (List Char) → List Char
  | [] => []
  | [l] => l
  | l :: ls => l ++ '\n' :: joinLines ls

/-- Applies a per-line transformation to every line of the input. -/
def perLine (f : List Char → List Char) (s : List Char) : List Char :=
  joinLines ((splitLines s).map f)

/-- Heading level 1 rule: a line starting with a hash and a space is
replaced by the rest of the line wrapped in h1 tags. -/
def h1Line (l : List Char) : List Char :=
  if isPre "# ".data l then "<h1>".data ++ l.drop 2 ++ "</h1>".data else l

/-- Heading level 2 rule: a line starting with two hashes and a space is
replaced by the rest of the line wrapped in h2 tags. -/
def h2Line (l : List Char) : List Char :=
  if isPre "## ".data l then "<h2>".data ++ l.drop 3 ++ "</h2>".data else l

/-- Bold rule on one line. -/
def boldLine (l : List Char) : List Char :=
  lazyPair "**".data "<strong>".data "</strong>".data (l.length + 1) l

/-- Italic rule on one line. -/
def italicLine (l : List Char) : List Char :=
  lazyPair "*".data "<em>".data "</em>".data (l.length + 1) l

/-- Link rule on one line. -/
def linkLine (l : List Char) : List Char :=
  linkSubst (l.length + 1) l

/-- `renderPreview` (app.js lines 162-172): the five substitutions in
source order — h1, h2, bold, italic, link — applied to the editor
content; the result is assigned to the preview surface. -/
def renderPreview (content : String) : String :=
  ⟨perLine linkLine (perLine italicLine (perLine boldLine
      (perLine h2Line (perLine h1Line content.data))))⟩

/-! View controller (app.js).  Module state and DOM surfaces. -/

/-- The module-level mutable state of app.js together with the DOM
surfaces the handlers read and write: the `notes` array, the nullable
`currentNoteId`, the title field value, the editor field value, the
preview HTML, the rendered note list, and the persistent fallback
store behind the db.js calls. -/
structure AppState where
  notes : List Note
  currentNoteId : Option String
  titleValue : String
  editorValue : String
  previewHtml : String
  noteListDisplay : List Note
  store : List Note
deriving Repr, DecidableEq

/-- The text an entry of the note list displays (app.js line 81):
`note.title || 'Untitled'`, so a note with an empty title displays as
`Untitled`. -/
def displayText (note : Note) : String :=
  if note.title = "" then "Untitled" else note.title

/-- JavaScript `toLowerCase`, modelled characterwise. -/
def toLowerCase (s : String) : String :=
  ⟨s.data.map Char.toLower⟩

/-- JavaScript `includes`: `hasInfix pat s` is true when `pat` occurs
contiguously somewhere in `s`. -/
def hasInfix (pat : List Char) : List Char → Bool
  | [] => isPre pat []
  | c :: cs => isPre pat (c :: cs) || hasInfix pat cs

/-- The subset of notes `renderNoteList` (app.js lines 70-86) displays:
an empty filter string is falsy and displays the whole array, otherwise
the notes whose lowercased title or lowercased content contains the
filter are kept.  The filter argument reaches this function already
lowercased by the search input handler. -/
def filterNotes (notes : List Note) (filter : String) : List Note :=
  if filter = "" then notes
  else
    notes.filter (fun note =>
      hasInfix filter.data (toLowerCase note.title).data ||
      hasInfix filter.data (toLowerCase note.content).data)

/-- `renderNoteList` (app.js lines 70-86): rebuilds the displayed list
from the in-memory array and the filter; it reads but never writes the
`notes` array. -/
def renderNoteList (st : AppState) (filter : String := "") : AppState :=
  { st with noteListDisplay := filterNotes st.notes filter }

/-- The search input handler (app.js lines 136-138): lowercases the raw
field value and re-renders the list with it. -/
def searchInput (st : AppState) (raw : String) : AppState :=
  renderNoteList st (toLowerCase raw)

/-- `openNote` (app.js lines 89-98): finds the note by `id`; when the
lookup fails it returns at once, otherwise it sets the selection, loads
title and content into the fields, re-renders the preview and the
list. -/
def openNote (id : String) (st : AppState) : AppState :=
  match st.notes.find? (fun n => n.id == id) with
  | none => st
  | some note =>
    renderNoteList
      { st with
        currentNoteId := some id
        titleValue := note.title
        editorValue := note.content
        previewHtml := renderPreview note.content }

/-- `createNewNote` (app.js lines 56-67): builds a note whose `id` is
`Date.now().toString()`, title `Untitled`, empty content and the
current ISO timestamp; saves it to the store, unshifts it onto the
in-memory array, and opens it.  `now` and `nowIso` are the clock
readings at the call. -/
def createNewNote (now : Nat) (nowIso : String) (st : AppState) : AppState :=
  let newNote : Note := { id := toString now, title := "Untitled", content := "", updatedAt := nowIso }
  openNote newNote.id
    { st with store := saveNote newNote st.store, notes := newNote :: st.notes }

/-- The shift-click delete handler (app.js lines 117-133).  The clicked
entry is resolved to a note id by searching the in-memory array for the
first note whose `title` equals the entry's displayed text; a falsy
result (no such note, or an empty-string id) does nothing.  Otherwise
the id is deleted from the store and filtered out of the array; when it
was the open note, the first remaining note is opened, or a fresh note
is created when none remain; the list is re-rendered. -/
def deleteClick (st : AppState) (clickedText : String) (now : Nat) (nowIso : String) : AppState :=
  match (st.notes.find? (fun n => n.title == clickedText)).map (fun n => n.id) with
  | none => st
  | some noteId =>
    if noteId = "" then st
    else
      let st1 : AppState :=
        { st with
          store := deleteNote noteId st.store
          notes := st.notes.filter (fun n => n.id != noteId) }
      let st2 : AppState :=
        if st1.currentNoteId = some noteId then
          match st1.notes with
          | n0 :: _ => openNote n0.id st1
          | [] => createNewNote now nowIso st1
        else st1
      renderNoteList st2

/-- A sequence of new-note button clicks: each event carries the clock
readings at its instant and runs `createNewNote`. -/
def runCreates (evts : List (Nat × String)) (st : AppState) : AppState :=
  evts.foldl (fun s e => createNewNote e.1 e.2 s) st

/-! Decimal representation helpers, used to reason about the
timestamp-derived identifiers `Date.now().toString()`, embedded as
`toString (now : Nat)` = `Nat.repr now`. -/

/-- The numeric value of a decimal digit character. -/
def charVal (c : Char) : Nat :=
  c.toNat - 48

/-- The decimal digit characters of a natural number, most significant
first, as produced by `Nat.repr`. -/
def reprChars (n : Nat) : List Char :=
  if _h : n < 10 then [Nat.digitChar n]
  else reprChars (n / 10) ++ [Nat.digitChar (n % 10)]
termination_by n
decreasing_by exact Nat.div_lt_self (by omega) (by omega)

/-- The value of a most-significant-first decimal character list. -/
def valChars : List Char → Nat
  | [] => 0
  | c :: cs => charVal c * 10 ^ cs.length + valChars cs

/-- The spec-side filter predicate (spec §4.3, §8): a haystack contains
a needle case-insensitively when the lowercased haystack contains the
lowercased needle as a contiguous substring. -/
def containsCaseInsensitive (hay needle : String) : Bool :=
  hasInfix (toLowerCase needle).data (toLowerCase hay).data

/-! Helper lemmas. -/

/-- An element written at a valid index is a member of the result. -/
theorem mem_set_self {α : Type _} (a : α) :
    ∀ (l : List α) (i : Nat), i < l.length → a ∈ l.set i a
  | _ :: _, 0, _ => by simp
  | x :: xs, i + 1, h => by
    simp only [List.set]
    exact List.mem_cons_of_mem x (mem_set_self a xs i (by simpa using h))

/-- `findIdx?` on a decomposed list whose head segment has no match
returns the index of the first matching element. -/
theorem findIdx?_first_match {α : Type _} (p : α → Bool) :
    ∀ (pre : List α) (m : α) (post : List α),
      (∀ x ∈ pre, p x = false) → p m = true →
      (pre ++ m :: post).findIdx? p = some pre.length
  | [], m, post, _, hm => by simp [List.findIdx?_cons, hm]
  | a :: l, m, post, hpre, hm => by
    have ha : p a = false := hpre a (List.mem_cons_self a l)
    have ih := findIdx?_first_match p l m post
      (fun x hx => hpre x (List.mem_cons_of_mem a hx)) hm
    simp [List.findIdx?_cons, ha, List.findIdx?_start_succ, ih]

/-- Writing at the index right after a prefix replaces the element
there. -/
theorem set_append_length {α : Type _} (a : α) :
    ∀ (pre : List α) (m : α) (post : List α),
      (pre ++ m :: post).set pre.length a = pre ++ a :: post
  | [], _, _ => rfl
  | x :: l, m, post => by
    show x :: (l ++ m :: post).set l.length a = x :: (l ++ a :: post)
    rw [set_append_length a l m post]

/-- The empty pattern occurs in every string. -/
theorem hasInfix_nil (s : List Char) : hasInfix [] s = true := by
  cases s <;> simp [hasInfix, isPre]

/-- `charVal` inverts `Nat.digitChar` on decimal digits. -/
theorem charVal_digitChar (d : Nat) (hd : d < 10) :
    charVal (Nat.digitChar d) = d := by
  interval_cases d <;> rfl

/-- Appending one digit multiplies the value by ten and adds the
digit. -/
theorem valChars_append_digit (c : Char) :
    ∀ cs : List Char, valChars (cs ++ [c]) = 10 * valChars cs + charVal c
  | [] => by simp [valChars]
  | a :: cs => by
    show charVal a * 10 ^ (cs ++ [c]).length + valChars (cs ++ [c])
        = 10 * (charVal a * 10 ^ cs.length + valChars cs) + charVal c
    rw [valChars_append_digit c cs, List.length_append]
    simp only [List.length_cons, List.length_nil]
    ring

/-- `valChars` is a left inverse of `reprChars`. -/
theorem valChars_reprChars (n : Nat) : valChars (reprChars n) = n := by
  induction n using Nat.strong_induction_on with
  | _ n ih =>
    rw [reprChars]
    split
    · next h => simp [valChars, charVal_digitChar n h]
    · next h =>
      rw [valChars_append_digit, ih (n / 10) (Nat.div_lt_self (by omega) (by omega)),
        charVal_digitChar _ (Nat.mod_lt _ (by omega))]
      omega

/-- `Nat.toDigitsCore` at base ten with sufficient fuel computes
`reprChars`. -/
theorem toDigitsCore_eq_reprChars :
    ∀ (f n : Nat) (ds : List Char), n < f →
      Nat.toDigitsCore 10 f n ds = reprChars n ++ ds := by
  intro f
  induction f with
  | zero => intro n ds h; omega
  | succ f ih =>
    intro n ds h
    simp only [Nat.toDigitsCore]
    by_cases h10 : n / 10 = 0
    · have hn : n < 10 := by omega
      rw [if_pos h10, reprChars, dif_pos hn, Nat.mod_eq_of_lt hn]
      rfl
    · rw [if_neg h10]
      have hlt : n / 10 < f := by
        have : n / 10 < n := Nat.div_lt_self (by omega) (by omega)
        omega
      rw [ih (n / 10) (Nat.digitChar (n % 10) :: ds) hlt]
      conv_rhs => rw [reprChars]
      rw [dif_neg (by omega : ¬n < 10)]
      simp

/-- `Nat.repr` produces exactly the `reprChars` digit string. -/
theorem repr_eq_reprChars (n : Nat) : Nat.repr n = ⟨reprChars n⟩ := by
  rw [Nat.repr, Nat.toDigits, toDigitsCore_eq_reprChars (n + 1) n [] (Nat.lt_succ_self n)]
  simp [List.asString]

/-- `toString` on naturals is injective: distinct numbers have distinct
decimal strings. -/
theorem natToString_injective : Function.Injective (fun n : Nat => toString n) := by
  intro a b h
  have h2 : Nat.repr a = Nat.repr b := h
  rw [repr_eq_reprChars, repr_eq_reprChars] at h2
  have h3 : reprChars a = reprChars b := by
    injection h2
  calc a = valChars (reprChars a) := (valChars_reprChars a).symm
    _ = valChars (reprChars b) := by rw [h3]
    _ = b := valChars_reprChars b

/-- Opening the head of the note list succeeds and loads it. -/
theorem openNote_head (n0 : Note) (tl : List Note) (st : AppState)
    (h : st.notes = n0 :: tl) :
    openNote n0.id st =
      renderNoteList
        { st with
          currentNoteId := some n0.id
          titleValue := n0.title
          editorValue := n0.content
          previewHtml := renderPreview n0.content } := by
  unfold openNote
  rw [h, List.find?_cons_of_pos _ (by simp)]

/-- `createNewNote` resolves to an explicit state: the fresh note is
saved, unshifted, and opened, filling every surface from it. -/
theorem createNewNote_eq (now : Nat) (nowIso : String) (st : AppState) :
    createNewNote now nowIso st =
      { notes := ⟨toString now, "Untitled", "", nowIso⟩ :: st.notes
        currentNoteId := some (toString now)
        titleValue := "Untitled"
        editorValue := ""
        previewHtml := renderPreview ""
        noteListDisplay := ⟨toString now, "Untitled", "", nowIso⟩ :: st.notes
        store := saveNote ⟨toString now, "Untitled", "", nowIso⟩ st.store } :=
  (openNote_head ⟨toString now, "Untitled", "", nowIso⟩ st.notes
    { st with
      store := saveNote ⟨toString now, "Untitled", "", nowIso⟩ st.store
      notes := ⟨toString now, "Untitled", "", nowIso⟩ :: st.notes } rfl).trans rfl

/-! Claim theorems. -/

/-- C4: the markdown renderer maps `"# Hi **there**"` to exactly
`"<h1>Hi <strong>there</strong></h1>"`: the heading rule fires first and
the bold rule then rewrites inside the substituted heading element. -/
theorem renderPreview_heading_bold_scenario :
    renderPreview "# Hi **there**" = "<h1>Hi <strong>there</strong></h1>" := by
  decide

/-- C5: round-trip on the fallback store — after `saveNote n`,
`getNotes` contains a record whose `id`, `title` and `content` equal
those of `n`, for every prior store state. -/
theorem saveNote_getNotes_roundTrip (note : Note) (store : List Note) :
    ∃ m ∈ getNotes (saveNote note store),
      m.id = note.id ∧ m.title = note.title ∧ m.content = note.content := by
  refine ⟨note, ?_, rfl, rfl, rfl⟩
  unfold getNotes saveNote
  split
  · next i h =>
    obtain ⟨hlt, -, -⟩ := List.findIdx?_eq_some_iff_getElem.mp h
    exact mem_set_self note store i hlt
  · next h => simp

/-- C6: upsert semantics of `saveNote` on the fallback store — when no
record carries the note's `id` the note is appended; when the store
splits as `pre ++ m :: post` with `m` the first record carrying the
`id`, that whole record is replaced by the note and nothing else
changes (no field-wise merge). -/
theorem saveNote_upsert (note : Note) (store : List Note) :
    ((∀ x ∈ store, x.id ≠ note.id) → saveNote note store = store ++ [note])
    ∧ (∀ pre m post, store = pre ++ m :: post → m.id = note.id →
        (∀ x ∈ pre, x.id ≠ note.id) → saveNote note store = pre ++ note :: post) := by
  constructor
  · intro h
    unfold saveNote
    have hnone : store.findIdx? (fun n => n.id == note.id) = none := by
      rw [List.findIdx?_eq_none_iff]
      intro x hx
      simpa using h x hx
    rw [hnone]
  · intro pre m post hstore hm hpre
    subst hstore
    unfold saveNote
    rw [findIdx?_first_match (fun n => n.id == note.id) pre m post
      (fun x hx => by simpa using hpre x hx) (by simpa using hm)]
    exact set_append_length note pre m post

/-- C6 witness: an insert into a store without the `id`, and a
whole-record replacement of an existing `id`. -/
theorem saveNote_upsert_check :
    saveNote ⟨"b", "tb", "cb", "ub"⟩ [⟨"a", "ta", "ca", "ua"⟩]
        = [⟨"a", "ta", "ca", "ua"⟩, ⟨"b", "tb", "cb", "ub"⟩]
    ∧ saveNote ⟨"a", "t2", "c2", "u2"⟩ [⟨"a", "ta", "ca", "ua"⟩] = [⟨"a", "t2", "c2", "u2"⟩] := by
  constructor
  · exact (saveNote_upsert ⟨"b", "tb", "cb", "ub"⟩ [⟨"a", "ta", "ca", "ua"⟩]).1 (by decide)
  · exact (saveNote_upsert ⟨"a", "t2", "c2", "u2"⟩ [⟨"a", "ta", "ca", "ua"⟩]).2
      [] ⟨"a", "ta", "ca", "ua"⟩ [] rfl rfl (by simp)

/-- C7: `deleteNote` with an `id` that no stored record carries leaves
the store unchanged; the embedded operation is total, so no error is
raised. -/
theorem deleteNote_missing_id_noop (id : String) (store : List Note)
    (h : ∀ x ∈ store, x.id ≠ id) : deleteNote id store = store := by
  unfold deleteNote
  rw [List.filter_eq_self]
  intro a ha
  simpa using h a ha

/-- C7 witness: deleting an absent `id` from a one-record store. -/
theorem deleteNote_missing_id_noop_check :
    deleteNote "z" [⟨"a", "t", "c", "u"⟩] = [⟨"a", "t", "c", "u"⟩] :=
  deleteNote_missing_id_noop "z" [⟨"a", "t", "c", "u"⟩] (by decide)

/-- C9: `renderNoteList` is side-effect free on the model — the
in-memory notes array, the selection, the field values and the store
are all unchanged; only the displayed subset is recomputed. -/
theorem renderNoteList_preserves_model (st : AppState) (filter : String) :
    (renderNoteList st filter).notes = st.notes
    ∧ (renderNoteList st filter).currentNoteId = st.currentNoteId
    ∧ (renderNoteList st filter).titleValue = st.titleValue
    ∧ (renderNoteList st filter).editorValue = st.editorValue
    ∧ (renderNoteList st filter).store = st.store
    ∧ (renderNoteList st filter).noteListDisplay = filterNotes st.notes filter :=
  ⟨rfl, rfl, rfl, rfl, rfl, rfl⟩

/-- C10: opening an `id` that no in-memory note carries is a complete
no-op: the returned state is the input state. -/
theorem openNote_unknown_id_noop (st : AppState) (id : String)
    (h : ∀ n ∈ st.notes, n.id ≠ id) : openNote id st = st := by
  unfold openNote
  rw [List.find?_eq_none.mpr (fun x hx => by simpa using h x hx)]

/-- C1, counterexample: two create-new-note invocations in the same
millisecond read the same clock value, so both notes get the identifier
`"5"` — the identifiers are not pairwise distinct. -/
theorem sameMillisecond_duplicate_ids :
    ((runCreates [(5, "t"), (5, "t")] ⟨[], none, "", "", "", [], []⟩).notes.map
        (fun n => n.id)) = ["5", "5"]
    ∧ ¬ ((runCreates [(5, "t"), (5, "t")] ⟨[], none, "", "", "", [], []⟩).notes.map
        (fun n => n.id)).Nodup := by
  constructor <;> decide

/-- C1 (amended): a sequence of create-new-note invocations whose clock
readings are pairwise distinct creates notes whose identifiers are
exactly the decimal strings of those readings (newest first) and are
pairwise distinct. -/
theorem distinct_timestamps_distinct_ids (evts : List (Nat × String)) (st : AppState)
    (h : (evts.map (fun e => e.1)).Nodup) :
    (runCreates evts st).notes.map (fun n => n.id)
        = (evts.map (fun e => toString e.1)).reverse ++ st.notes.map (fun n => n.id)
    ∧ (evts.map (fun e => toString e.1)).Nodup := by
  constructor
  · clear h
    induction evts generalizing st with
    | nil => simp [runCreates]
    | cons e rest ih =>
      show (runCreates rest (createNewNote e.1 e.2 st)).notes.map (fun n => n.id) = _
      rw [ih (createNewNote e.1 e.2 st), createNewNote_eq]
      simp [List.append_assoc]
  · have h2 := h.map natToString_injective
    simpa [List.map_map, Function.comp] using h2

/-- C1 witness: two creations at distinct clock readings yield the
distinct identifiers `"2"` and `"1"`. -/
theorem distinct_timestamps_distinct_ids_check :
    (([(1, "a"), (2, "b")] : List (Nat × String)).map (fun e => e.1)).Nodup
    ∧ ((runCreates [(1, "a"), (2, "b")] ⟨[], none, "", "", "", [], []⟩).notes.map
          (fun n => n.id)
        = (([(1, "a"), (2, "b")] : List (Nat × String)).map
            (fun e => toString e.1)).reverse
          ++ (AppState.mk [] none "" "" "" [] []).notes.map (fun n => n.id)
      ∧ (([(1, "a"), (2, "b")] : List (Nat × String)).map
          (fun e => toString e.1)).Nodup) :=
  ⟨by decide, distinct_timestamps_distinct_ids [(1, "a"), (2, "b")]
    ⟨[], none, "", "", "", [], []⟩ (by decide)⟩

/-- C2: after a shift-click delete that resolves to the currently open
note, the selection always lands on a note that exists: the first
remaining note is opened when any remain, and otherwise a fresh
`Untitled` note is created and opened; the note list is never empty
afterwards. -/
theorem deleteClick_current_reopens (st : AppState) (clickedText : String)
    (now : Nat) (nowIso : String) (m : Note)
    (hfind : st.notes.find? (fun n => n.title == clickedText) = some m)
    (hid : m.id ≠ "")
    (hcur : st.currentNoteId = some m.id) :
    (∃ cid, (deleteClick st clickedText now nowIso).currentNoteId = some cid
        ∧ cid ∈ (deleteClick st clickedText now nowIso).notes.map (fun n => n.id))
    ∧ (deleteClick st clickedText now nowIso).notes ≠ []
    ∧ (∀ n0 tl, st.notes.filter (fun n => n.id != m.id) = n0 :: tl →
        (deleteClick st clickedText now nowIso).notes = n0 :: tl
          ∧ (deleteClick st clickedText now nowIso).currentNoteId = some n0.id)
    ∧ (st.notes.filter (fun n => n.id != m.id) = [] →
        ∃ fresh, (deleteClick st clickedText now nowIso).notes = [fresh]
          ∧ fresh.title = "Untitled"
          ∧ (deleteClick st clickedText now nowIso).currentNoteId = some fresh.id) := by
  have hD0 : deleteClick st clickedText now nowIso =
      (if m.id = "" then st
      else
        renderNoteList
          (if st.currentNoteId = some m.id then
            match st.notes.filter (fun n => n.id != m.id) with
            | n0 :: _ =>
              openNote n0.id
                { st with
                  store := deleteNote m.id st.store
                  notes := st.notes.filter (fun n => n.id != m.id) }
            | [] =>
              createNewNote now nowIso
                { st with
                  store := deleteNote m.id st.store
                  notes := st.notes.filter (fun n => n.id != m.id) }
          else
            { st with
              store := deleteNote m.id st.store
              notes := st.notes.filter (fun n => n.id != m.id) })) := by
    unfold deleteClick
    rw [hfind]
    rfl
  rw [if_neg hid, if_pos hcur] at hD0
  rcases hrem : st.notes.filter (fun n => n.id != m.id) with _ | ⟨n0, tl⟩
  · rw [hrem] at hD0
    have hD : deleteClick st clickedText now nowIso =
        renderNoteList (createNewNote now nowIso
          { st with store := deleteNote m.id st.store, notes := [] }) := hD0
    rw [createNewNote_eq] at hD
    refine ⟨⟨toString now, ?_, ?_⟩, ?_, ?_, ?_⟩
    · rw [hD]; rfl
    · rw [hD]; simp [renderNoteList]
    · rw [hD]; simp [renderNoteList, filterNotes]
    · intro n0 tl hc
      rw [hrem] at hc
      cases hc
    · intro _
      refine ⟨⟨toString now, "Untitled", "", nowIso⟩, ?_, rfl, ?_⟩
      · rw [hD]; rfl
      · rw [hD]; rfl
  · rw [hrem] at hD0
    have hD : deleteClick st clickedText now nowIso =
        renderNoteList (openNote n0.id
          { st with store := deleteNote m.id st.store, notes := n0 :: tl }) := hD0
    rw [openNote_head n0 tl _ rfl] at hD
    refine ⟨⟨n0.id, ?_, ?_⟩, ?_, ?_, ?_⟩
    · rw [hD]; rfl
    · rw [hD]; simp [renderNoteList]
    · rw [hD]; simp [renderNoteList, filterNotes]
    · intro n0' tl' hc
      rw [hrem] at hc
      cases hc
      exact ⟨by rw [hD]; rfl, by rw [hD]; rfl⟩
    · intro hc
      rw [hrem] at hc
      cases hc

/-- C2 witness: deleting the only note (which is open) creates and
opens a fresh `Untitled` note. -/
theorem deleteClick_current_reopens_check :
    (∃ cid,
        (deleteClick ⟨[⟨"1", "a", "c", "u"⟩], some "1", "a", "c", "", [], [⟨"1", "a", "c", "u"⟩]⟩
            "a" 7 "t").currentNoteId = some cid
          ∧ cid ∈ (deleteClick ⟨[⟨"1", "a", "c", "u"⟩], some "1", "a", "c", "", [],
              [⟨"1", "a", "c", "u"⟩]⟩ "a" 7 "t").notes.map (fun n => n.id))
    ∧ (∃ fresh,
        (deleteClick ⟨[⟨"1", "a", "c", "u"⟩], some "1", "a", "c", "", [], [⟨"1", "a", "c", "u"⟩]⟩
            "a" 7 "t").notes = [fresh]
          ∧ fresh.title = "Untitled"
          ∧ (deleteClick ⟨[⟨"1", "a", "c", "u"⟩], some "1", "a", "c", "", [],
              [⟨"1", "a", "c", "u"⟩]⟩ "a" 7 "t").currentNoteId = some fresh.id) :=
  ⟨(deleteClick_current_reopens
      ⟨[⟨"1", "a", "c", "u"⟩], some "1", "a", "c", "", [], [⟨"1", "a", "c", "u"⟩]⟩
      "a" 7 "t" ⟨"1", "a", "c", "u"⟩ (by decide) (by decide) rfl).1,
    (deleteClick_current_reopens
      ⟨[⟨"1", "a", "c", "u"⟩], some "1", "a", "c", "", [], [⟨"1", "a", "c", "u"⟩]⟩
      "a" 7 "t" ⟨"1", "a", "c", "u"⟩ (by decide) (by decide) rfl).2.2.2 (by decide)⟩

/-- C3, failing input: two notes titled `dup` (ids `1` and `2`), note
`2` open; a shift-click on note `2`'s entry (displayed text `dup`)
deletes note `1` — the first title match — and note `2`, the clicked
entry's note, remains in memory and in the store. -/
theorem deleteClick_removes_firstTitleMatch_not_clicked :
    (deleteClick
        ⟨[⟨"1", "dup", "a", "u"⟩, ⟨"2", "dup", "b", "u"⟩], some "2", "dup", "b", "", [],
          [⟨"1", "dup", "a", "u"⟩, ⟨"2", "dup", "b", "u"⟩]⟩
        (displayText ⟨"2", "dup", "b", "u"⟩) 9 "t").notes
      = [⟨"2", "dup", "b", "u"⟩]
    ∧ (deleteClick
        ⟨[⟨"1", "dup", "a", "u"⟩, ⟨"2", "dup", "b", "u"⟩], some "2", "dup", "b", "", [],
          [⟨"1", "dup", "a", "u"⟩, ⟨"2", "dup", "b", "u"⟩]⟩
        (displayText ⟨"2", "dup", "b", "u"⟩) 9 "t").store
      = [⟨"2", "dup", "b", "u"⟩] := by
  constructor <;> decide

/-- C8: the displayed subset after typing a raw search string equals
exactly the notes whose title or content contains the raw string
case-insensitively, and the empty search displays all notes. -/
theorem searchFilter_correct (st : AppState) (raw : String) :
    (searchInput st raw).noteListDisplay
        = st.notes.filter (fun n =>
            containsCaseInsensitive n.title raw || containsCaseInsensitive n.content raw)
    ∧ (searchInput st "").noteListDisplay = st.notes := by
  constructor
  · show filterNotes st.notes (toLowerCase raw) = _
    obtain ⟨d⟩ := raw
    cases d with
    | nil =>
      show filterNotes st.notes "" = _
      unfold filterNotes
      rw [if_pos rfl]
      symm
      rw [List.filter_eq_self]
      intro a _
      simp [containsCaseInsensitive, toLowerCase, hasInfix_nil]
    | cons c cs =>
      unfold filterNotes
      rw [if_neg (fun hh => by simpa [toLowerCase] using congrArg String.data hh)]
      rfl
  · show filterNotes st.notes (toLowerCase "") = st.notes
    show filterNotes st.notes "" = st.notes
    unfold filterNotes
    rw [if_pos rfl]

/-- C10 witness: opening a missing `id` on a one-note state. -/
theorem openNote_unknown_id_noop_check :
    openNote "z" ⟨[⟨"a", "t", "c", "u"⟩], some "a", "t", "c", "", [], []⟩
      = ⟨[⟨"a", "t", "c", "u"⟩], some "a", "t", "c", "", [], []⟩ :=
  openNote_unknown_id_noop ⟨[⟨"a", "t", "c", "u"⟩], some "a", "t", "c", "", [], []⟩ "z"
    (by decide)

end SimpleNotes
